import Mathlib

/-!
Verification of the gatus-sidecar reconciliation core.

This file gives a shallow embedding of the Go sources:
  * `internal/endpoint` (the `Endpoint` record and `ApplyTemplate`),
  * `internal/controller` (template parsing/merging, guarded detection,
    `handleEvent`, `initialList`),
  * `internal/state` (the `Manager` with `AddOrUpdate`, `Remove`,
    `ForceWrite`, `writeState`, `getCurrentState`),
  * `internal/resources/httproute` (`urlExtractor`, `getFirstHostname`),
and proves or refutes the specified properties about them.

Go `map[string]T` values are modelled as association lists with unique
keys; `m[k] = v` replaces the first binding in place or appends, `delete`
removes the binding, and lookup returns the first binding.  Go's `any`
values produced by `yaml.Unmarshal` (plus the `[]string` case that the
endpoint type switch distinguishes) are modelled by the inductive `TVal`.
-/

namespace GatusSidecar

/-- One step of Go `strings.HasPrefix` on the character lists. -/
def chListIsPre : List Char → List Char → Bool
  | [], _ => true
  | _ :: _, [] => false
  | a :: as1, b :: bs => a == b && chListIsPre as1 bs

/-- Go `strings.HasPrefix(s, pre)` (byte and character prefixes coincide
on the ASCII prefixes used here). -/
def goStartsWith (s pre : String) : Bool :=
  chListIsPre pre.data s.data

/-- Lexicographic comparison of character lists. -/
def chListLt : List Char → List Char → Bool
  | [], [] => false
  | [], _ :: _ => true
  | _ :: _, [] => false
  | a :: as1, b :: bs =>
    if a.toNat < b.toNat then true
    else if b.toNat < a.toNat then false
    else chListLt as1 bs

/-- Go string comparison `a < b`, the comparator of `sort.Slice` in
`getCurrentState`. -/
def goStrLt (a b : String) : Bool :=
  chListLt a.data b.data

section Assoc

variable {α : Type}

/-- Lookup in a Go map modelled as an association list (`v, ok := m[k]`). -/
def findA : List (String × α) → String → Option α
  | [], _ => none
  | (k', v) :: t, k => if k' = k then some v else findA t k

/-- Go map assignment `m[k] = v`: replace the binding in place, or append. -/
def setKey : List (String × α) → String → α → List (String × α)
  | [], k, v => [(k, v)]
  | (k', v') :: t, k, v => if k' = k then (k, v) :: t else (k', v') :: setKey t k v

/-- Go `delete(m, k)`: drop the binding for `k`. -/
def eraseKey : List (String × α) → String → List (String × α)
  | [], _ => []
  | (k', v') :: t, k => if k' = k then t else (k', v') :: eraseKey t k

/-- Go `maps.Copy(dst, src)`: insert every binding of `src` into `dst`. -/
def mapsCopy (dst : List (String × α)) : List (String × α) → List (String × α)
  | [] => dst
  | (k, v) :: rest => mapsCopy (setKey dst k v) rest

end Assoc

/-- The Go `any` values appearing in parsed annotation templates
(`yaml.Unmarshal` output: null, booleans, integers, strings, sequences
and string-keyed mappings), together with `vStrSlice` for a Go-typed
`[]string` value, which the endpoint field setters treat as its own case. -/
inductive TVal where
  | vNull : TVal
  | vBool : Bool → TVal
  | vInt : Int → TVal
  | vStr : String → TVal
  | vStrSlice : List String → TVal
  | vSeq : List TVal → TVal
  | vMap : List (String × TVal) → TVal
  deriving Repr


/-- A Go `map[string]any` (non-nil); nil maps are `Option TMap = none`. -/
abbrev TMap := List (String × TVal)

/-- Decidable structural equality for `TVal`, written by recursion because
the nested inductive does not support the derive handler. -/
def TVal.decEq : (a b : TVal) → Decidable (a = b)
  | .vNull, .vNull => .isTrue rfl
  | .vBool a, .vBool b =>
      if h : a = b then .isTrue (by rw [h]) else .isFalse (by simp [h])
  | .vInt a, .vInt b =>
      if h : a = b then .isTrue (by rw [h]) else .isFalse (by simp [h])
  | .vStr a, .vStr b =>
      if h : a = b then .isTrue (by rw [h]) else .isFalse (by simp [h])
  | .vStrSlice a, .vStrSlice b =>
      if h : a = b then .isTrue (by rw [h]) else .isFalse (by simp [h])
  | .vSeq [], .vSeq [] => .isTrue rfl
  | .vSeq [], .vSeq (_ :: _) => .isFalse (by simp)
  | .vSeq (_ :: _), .vSeq [] => .isFalse (by simp)
  | .vSeq (x :: xs), .vSeq (y :: ys) =>
      match TVal.decEq x y, TVal.decEq (.vSeq xs) (.vSeq ys) with
      | .isTrue h1, .isTrue h2 => .isTrue (by simp_all)
      | .isFalse h1, _ => .isFalse (by simp_all)
      | _, .isFalse h2 => .isFalse (by simp_all)
  | .vMap [], .vMap [] => .isTrue rfl
  | .vMap [], .vMap (_ :: _) => .isFalse (by simp)
  | .vMap (_ :: _), .vMap [] => .isFalse (by simp)
  | .vMap ((k1, v1) :: xs), .vMap ((k2, v2) :: ys) =>
      if hk : k1 = k2 then
        match TVal.decEq v1 v2, TVal.decEq (.vMap xs) (.vMap ys) with
        | .isTrue h1, .isTrue h2 => .isTrue (by simp_all)
        | .isFalse h1, _ => .isFalse (by simp_all)
        | _, .isFalse h2 => .isFalse (by simp_all)
      else .isFalse (by simp_all)
  | .vNull, .vBool _ => .isFalse (by simp)
  | .vNull, .vInt _ => .isFalse (by simp)
  | .vNull, .vStr _ => .isFalse (by simp)
  | .vNull, .vStrSlice _ => .isFalse (by simp)
  | .vNull, .vSeq _ => .isFalse (by simp)
  | .vNull, .vMap _ => .isFalse (by simp)
  | .vBool _, .vNull => .isFalse (by simp)
  | .vBool _, .vInt _ => .isFalse (by simp)
  | .vBool _, .vStr _ => .isFalse (by simp)
  | .vBool _, .vStrSlice _ => .isFalse (by simp)
  | .vBool _, .vSeq _ => .isFalse (by simp)
  | .vBool _, .vMap _ => .isFalse (by simp)
  | .vInt _, .vNull => .isFalse (by simp)
  | .vInt _, .vBool _ => .isFalse (by simp)
  | .vInt _, .vStr _ => .isFalse (by simp)
  | .vInt _, .vStrSlice _ => .isFalse (by simp)
  | .vInt _, .vSeq _ => .isFalse (by simp)
  | .vInt _, .vMap _ => .isFalse (by simp)
  | .vStr _, .vNull => .isFalse (by simp)
  | .vStr _, .vBool _ => .isFalse (by simp)
  | .vStr _, .vInt _ => .isFalse (by simp)
  | .vStr _, .vStrSlice _ => .isFalse (by simp)
  | .vStr _, .vSeq _ => .isFalse (by simp)
  | .vStr _, .vMap _ => .isFalse (by simp)
  | .vStrSlice _, .vNull => .isFalse (by simp)
  | .vStrSlice _, .vBool _ => .isFalse (by simp)
  | .vStrSlice _, .vInt _ => .isFalse (by simp)
  | .vStrSlice _, .vStr _ => .isFalse (by simp)
  | .vStrSlice _, .vSeq _ => .isFalse (by simp)
  | .vStrSlice _, .vMap _ => .isFalse (by simp)
  | .vSeq _, .vNull => .isFalse (by simp)
  | .vSeq _, .vBool _ => .isFalse (by simp)
  | .vSeq _, .vInt _ => .isFalse (by simp)
  | .vSeq _, .vStr _ => .isFalse (by simp)
  | .vSeq _, .vStrSlice _ => .isFalse (by simp)
  | .vSeq _, .vMap _ => .isFalse (by simp)
  | .vMap _, .vNull => .isFalse (by simp)
  | .vMap _, .vBool _ => .isFalse (by simp)
  | .vMap _, .vInt _ => .isFalse (by simp)
  | .vMap _, .vStr _ => .isFalse (by simp)
  | .vMap _, .vStrSlice _ => .isFalse (by simp)
  | .vMap _, .vSeq _ => .isFalse (by simp)
termination_by a _ => sizeOf a

instance : DecidableEq TVal := TVal.decEq

/-- `v.(string)` succeeding. -/
def TVal.asStr : TVal → Option String
  | .vStr s => some s
  | _ => none

/-- Whether the `v.(string)` type assertion succeeds. -/
def TVal.isStr : TVal → Bool
  | .vStr _ => true
  | _ => false

/-- Whether the `v.(map[string]any)` type assertion succeeds. -/
def TVal.isMap : TVal → Bool
  | .vMap _ => true
  | _ => false

/-- Whether the `v.(bool)` type assertion succeeds. -/
def TVal.isBool : TVal → Bool
  | .vBool _ => true
  | _ => false

/-!
## Endpoint model (`internal/endpoint/endpoint.go`)

The `Endpoint` struct with its yaml-tagged fields.  Go nil slices and nil
maps are `none`; a present (possibly empty) slice or map is `some`.
-/

structure Endpoint where
  Name : String
  Group : String
  URL : String
  Conditions : Option (List String)
  Interval : String
  DNS : Option TMap
  Client : Option TMap
  UI : Option TMap
  Guarded : Bool
  Extra : Option TMap
  deriving DecidableEq, Repr

namespace Endpoint

/-- `setStringField`: sets a string field if the value is a string. -/
def setStringField (field : String) (value : TVal) : String :=
  match value with
  | .vStr str => str
  | _ => field

/-- `setConditionsField`: handles the `[]string`, `[]any` and `string`
condition formats; any other value leaves the field unchanged. -/
def setConditionsField (field : Option (List String)) (value : TVal) :
    Option (List String) :=
  match value with
  | .vStrSlice v => some v
  | .vSeq v => some (v.filterMap TVal.asStr)
  | .vStr v => some [v]
  | _ => field

/-- `setMapField`: merges map settings into the field (creating it when
nil) if the value is a map; otherwise leaves the field unchanged. -/
def setMapField (field : Option TMap) (value : TVal) : Option TMap :=
  match value with
  | .vMap mapValue => some (mapsCopy (field.getD []) mapValue)
  | _ => field

/-- `AddExtraField`: stores an unrecognized key in `Extra` (created on
first use). -/
def AddExtraField (e : Endpoint) (key : String) (value : TVal) : Endpoint :=
  { e with Extra := some (setKey (e.Extra.getD []) key value) }

/-- The body of the `switch key` statement in `ApplyTemplate`, applied to
one template entry. -/
def applyEntry (e : Endpoint) (key : String) (value : TVal) : Endpoint :=
  if key = "name" then { e with Name := setStringField e.Name value }
  else if key = "group" then { e with Group := setStringField e.Group value }
  else if key = "url" then { e with URL := setStringField e.URL value }
  else if key = "conditions" then
    { e with Conditions := setConditionsField e.Conditions value }
  else if key = "interval" then
    { e with Interval := setStringField e.Interval value }
  else if key = "dns" then { e with DNS := setMapField e.DNS value }
  else if key = "client" then { e with Client := setMapField e.Client value }
  else if key = "ui" then { e with UI := setMapField e.UI value }
  else if key = "guarded" then
    { e with Guarded := match value with | .vBool guarded => guarded | _ => e.Guarded }
  else AddExtraField e key value

/-- The `for key, value := range templateData` loop of `ApplyTemplate`
(the association list fixes one iteration order for the Go map). -/
def applyEntries (e : Endpoint) : TMap → Endpoint
  | [] => e
  | (key, value) :: rest => applyEntries (applyEntry e key value) rest

/-- `Endpoint.ApplyTemplate`: a nil template is a no-op, otherwise every
entry of the template is applied. -/
def ApplyTemplate (e : Endpoint) (templateData : Option TMap) : Endpoint :=
  match templateData with
  | none => e
  | some entries => applyEntries e entries

end Endpoint

/-!
## State manager (`internal/state/state.go`)

The manager's mutable state: the endpoint map, plus a model of the output
file (`file` is the last document written, `writeCount` the number of
`writeState` calls, i.e. disk writes).
-/

structure ManagerState where
  endpoints : List (String × Endpoint)
  file : Option (List Endpoint)
  writeCount : Nat
  deriving DecidableEq, Repr

namespace Manager

/-- `NewManager`: empty map, nothing written yet. -/
def NewManager : ManagerState :=
  { endpoints := [], file := none, writeCount := 0 }

/-- Insertion step for `sort.Slice` by `Name` (the comparator used by
`getCurrentState`). -/
def insertByName (e : Endpoint) : List Endpoint → List Endpoint
  | [] => [e]
  | x :: xs =>
    if goStrLt e.Name x.Name then e :: x :: xs else x :: insertByName e xs

/-- Sorting by endpoint name, as `getCurrentState` does. -/
def sortByName : List Endpoint → List Endpoint
  | [] => []
  | x :: xs => insertByName x (sortByName xs)

/-- `getCurrentState`: the endpoint values sorted by name (the document
that gets marshalled under the `endpoints:` key). -/
def getCurrentState (endpoints : List (String × Endpoint)) : List Endpoint :=
  sortByName (endpoints.map Prod.snd)

/-- `writeState`: marshal the current state and write it to the output
file (modelled as recording the document and counting the write). -/
def writeState (s : ManagerState) : ManagerState :=
  { s with file := some (getCurrentState s.endpoints),
           writeCount := s.writeCount + 1 }

/-- `Manager.AddOrUpdate(key, e, write)`: no-op returning `false` when the
stored endpoint is structurally equal to the candidate; otherwise stores
it, writes state exactly when the `write` flag is true, and returns
`true`. -/
def AddOrUpdate (s : ManagerState) (key : String) (e : Endpoint)
    (write : Bool) : ManagerState × Bool :=
  let store : ManagerState × Bool :=
    let s' := { s with endpoints := setKey s.endpoints key e }
    (if write then writeState s' else s', true)
  match findA s.endpoints key with
  | some existing => if existing = e then (s, false) else store
  | none => store

/-- `Manager.Remove(key)`: deletes the key if present and writes state;
no-op returning `false` when absent. -/
def Remove (s : ManagerState) (key : String) : ManagerState × Bool :=
  match findA s.endpoints key with
  | none => (s, false)
  | some _ =>
    (writeState { s with endpoints := eraseKey s.endpoints key }, true)

/-- `Manager.ForceWrite()`: unconditionally writes the current state. -/
def ForceWrite (s : ManagerState) : ManagerState :=
  writeState s

end Manager

/-!
## Controller (`internal/controller/controller.go`, current generation)

The controller is generic over the watched object type `σ`; the
`ResourceHandler` calls and metadata accessors are fields, and
`yaml.Unmarshal` is modelled by the `yamlParse` field (an `Except` since
unmarshalling is fallible and may also return a nil map).
-/

/-- The configuration fields consumed by `handleEvent`
(`internal/config/config.go`): the default interval already rendered by
`Duration.String()`, and the two annotation keys (`TemplateAnnotation`
and `EnabledAnnotation` in the source, renamed here). -/
structure Config where
  DefaultInterval : String
  templateAnnKey : String
  enabledAnnKey : String
  deriving DecidableEq, Repr

inductive EventType where
  | added : EventType
  | modified : EventType
  | deleted : EventType
  | bookmark : EventType
  deriving DecidableEq, Repr

structure Controller (σ : Type) where
  resource : String
  objName : σ → String
  objNamespace : σ → String
  objAnns : σ → List (String × String)
  ShouldProcess : σ → Config → Bool
  ExtractURL : σ → String
  ApplyTemplate : Config → σ → Endpoint → Endpoint
  GetParentAnns : σ → Option (List (String × String))
  yamlParse : String → Except String (Option TMap)

mutual

/-- `deepMergeTemplates` on the non-nil maps: copy the parent, then for
each child key apply the loop body `deepMergeStep` to the accumulated
result. -/
def deepMergeCore (parent : TMap) : TMap → TMap
  | [] => parent
  | (key, childValue) :: rest =>
    deepMergeCore (deepMergeStep parent key childValue) rest
termination_by c => sizeOf c

/-- The body of the `for key, childValue := range child` loop: when the
value held at that key by the accumulated result and the child's value
are both maps, recursively merge them, otherwise the child's value
overwrites. -/
def deepMergeStep (parent : TMap) (key : String) (childValue : TVal) : TMap :=
  match findA parent key, childValue with
  | some (TVal.vMap parentMap), TVal.vMap childMap =>
      setKey parent key (TVal.vMap (deepMergeCore parentMap childMap))
  | _, _ => setKey parent key childValue
termination_by sizeOf childValue

end

/-- `Controller.deepMergeTemplates`: nil parent returns the child, nil
child returns the parent, otherwise the recursive merge with the child
taking precedence. -/
def deepMergeTemplates (parent child : Option TMap) : Option TMap :=
  match parent, child with
  | none, _ => child
  | _, none => parent
  | some p, some c => some (deepMergeCore p c)

/-- `Controller.parseTemplateData`: absent or empty annotation yields a
nil template with no error; otherwise the string is unmarshalled. -/
def parseTemplateData {σ : Type} (C : Controller σ)
    (anns : List (String × String)) (annKey : String) :
    Except String (Option TMap) :=
  match findA anns annKey with
  | none => Except.ok none
  | some templateStr =>
    if templateStr = "" then Except.ok none else C.yamlParse templateStr

/-- `Controller.buildTemplateData`: parse the parent template, then the
object template, then deep-merge them (object wins). -/
def buildTemplateData {σ : Type} (C : Controller σ) (cfg : Config)
    (obj : σ) : Except String (Option TMap) :=
  let parentAnns := (C.GetParentAnns obj).getD []
  match parseTemplateData C parentAnns cfg.templateAnnKey with
  | Except.error e => Except.error e
  | Except.ok parentTemplateData =>
    match parseTemplateData C (C.objAnns obj) cfg.templateAnnKey with
    | Except.error e => Except.error e
    | Except.ok objectTemplateData =>
      Except.ok (deepMergeTemplates parentTemplateData objectTemplateData)

/-- `Controller.isGuardedEndpoint`: nil template is not guarded; otherwise
guarded iff the `"guarded"` key is present (`_, exists := m["guarded"]`). -/
def isGuardedEndpoint (templateData : Option TMap) : Bool :=
  match templateData with
  | none => false
  | some m => (findA m "guarded").isSome

/-- `Controller.isEndpointDisabled`: the enabled annotation is present with
a value that is neither `"true"` nor `"1"`. -/
def isEndpointDisabled (cfg : Config) (anns : List (String × String)) : Bool :=
  match findA anns cfg.enabledAnnKey with
  | none => false
  | some enabledValue => enabledValue != "true" && enabledValue != "1"

/-- The base endpoint literal built by `handleEvent` (name, url, default
interval, guarded flag; everything else zero-valued). -/
def buildBaseEndpoint (cfg : Config) (name url : String)
    (templateData : Option TMap) : Endpoint :=
  { Name := name, Group := "", URL := url, Conditions := none,
    Interval := cfg.DefaultInterval, DNS := none, Client := none,
    UI := none, Guarded := isGuardedEndpoint templateData, Extra := none }

/-- `Controller.handleEvent`: the per-event pipeline, returning the new
manager state. -/
def handleEvent {σ : Type} (C : Controller σ) (cfg : Config) (obj : σ)
    (eventType : EventType) (skipWrite : Bool) (s : ManagerState) :
    ManagerState :=
  let name := C.objName obj
  let key := name ++ "." ++ C.objNamespace obj ++ "." ++ C.resource
  if C.ShouldProcess obj cfg = false ∨ eventType = EventType.deleted then
    (Manager.Remove s key).1
  else
    let url := C.ExtractURL obj
    if url = "" then s
    else if isEndpointDisabled cfg (C.objAnns obj) = true then
      (Manager.Remove s key).1
    else
      match buildTemplateData C cfg obj with
      | Except.error _ => s
      | Except.ok templateData =>
        let e0 := buildBaseEndpoint cfg name url templateData
        let e1 := C.ApplyTemplate cfg obj e0
        let e2 := if templateData.isSome
                  then Endpoint.ApplyTemplate e1 templateData
                  else e1
        (Manager.AddOrUpdate s key e2 skipWrite).1

/-- `Controller.initialList`: process every convertible listed item as an
Added event, passing `isNotLast` (`i != len(items)-1`) as the
`skipWrite` argument of `handleEvent`.  Items whose conversion failed
(`none`) are skipped but still occupy an index. -/
def initialList {σ : Type} (C : Controller σ) (cfg : Config)
    (items : List (Option σ)) (s : ManagerState) : ManagerState :=
  let n := items.length
  items.enum.foldl
    (fun st p =>
      match p.2 with
      | none => st
      | some obj => handleEvent C cfg obj EventType.added (p.1 != n - 1) st)
    s

/-!
## HTTPRoute url extraction (`internal/resources/httproute/httproute.go`)
-/

/-- An HTTPRoute as far as `urlExtractor` is concerned: its
`Spec.Hostnames`. -/
structure HTTPRoute where
  hostnames : List String
  deriving DecidableEq, Repr

/-- `getFirstHostname`: empty string when there are no hostnames,
otherwise the first. -/
def getFirstHostname (route : HTTPRoute) : String :=
  match route.hostnames with
  | [] => ""
  | h :: _ => h

/-- `urlExtractor`: empty hostname propagates; a hostname without the
`"http"` prefix gets `"https://"` prepended; otherwise it is returned
unchanged. -/
def urlExtractor (route : HTTPRoute) : String :=
  let hostname := getFirstHostname route
  if hostname = "" then ""
  else if goStartsWith hostname "http" = false then "https://" ++ hostname
  else hostname

/-!
## Concrete fixtures used by the closed evaluation theorems and witnesses.
-/

/-- A minimal watched object for exercising the generic controller. -/
structure K8sObj where
  name : String
  ns : String
  url : String
  anns : List (String × String)
  deriving DecidableEq, Repr

/-- A controller over `K8sObj` whose handler hooks are transparent: it
processes everything, extracts the stored url, and applies no
resource-specific template.  The objects used with it carry no
annotations, so `yamlParse` is never reached. -/
def passController : Controller K8sObj :=
  { resource := "httproutes"
    objName := K8sObj.name
    objNamespace := K8sObj.ns
    objAnns := K8sObj.anns
    ShouldProcess := fun _ _ => true
    ExtractURL := K8sObj.url
    ApplyTemplate := fun _ _ e => e
    GetParentAnns := fun _ => none
    yamlParse := fun _ => Except.error "unreached" }

/-- The default configuration values from `internal/config/config.go`. -/
def cfgX : Config :=
  { DefaultInterval := "1m0s"
    templateAnnKey := "gatus.home-operations.com/endpoint"
    enabledAnnKey := "gatus.home-operations.com/enabled" }

def oAlpha : K8sObj := ⟨"alpha", "default", "https://alpha.example.com", []⟩

def oBeta : K8sObj := ⟨"beta", "default", "https://beta.example.com", []⟩

def oGamma : K8sObj := ⟨"gamma", "default", "https://gamma.example.com", []⟩

/-- An object whose url extraction comes back empty. -/
def oNoUrl : K8sObj := ⟨"web", "default", "", []⟩

/-- A previously derived endpoint for `oNoUrl`'s key. -/
def eWeb : Endpoint :=
  buildBaseEndpoint cfgX "web" "https://web.example.com" none

/-- Manager state holding `eWeb` under `oNoUrl`'s composite key. -/
def sWeb : ManagerState :=
  { endpoints := [("web.default.httproutes", eWeb)], file := none,
    writeCount := 0 }

/-- A generic endpoint used by witnesses. -/
def eSvc : Endpoint :=
  { Name := "svc", Group := "", URL := "https://svc.example.com",
    Conditions := none, Interval := "1m0s", DNS := none, Client := none,
    UI := none, Guarded := false, Extra := none }

/-- A template touching a string field, a map field and an extra field. -/
def tOverride : TMap :=
  [("name", TVal.vStr "other"),
   ("dns", TVal.vMap [("query-type", TVal.vStr "A")]),
   ("x-alert", TVal.vInt 3)]

def routeHttpName : HTTPRoute := ⟨["http-test.domain.com"]⟩

def routePlain : HTTPRoute := ⟨["api.example.com"]⟩

/-- The manager state after the initial listing of three convertible
objects with distinct names and non-empty urls. -/
def c2run : ManagerState :=
  initialList passController cfgX [some oAlpha, some oBeta, some oGamma]
    Manager.NewManager

/-- The spec's description of what the deep merge holds at each key:
absent in the child means the parent's value; present in both with both
values maps means the recursive merge; otherwise the child's value
replaces the parent's entirely. -/
def mergeLookupSpec (p c : TMap) (k : String) : Option TVal :=
  match findA c k with
  | none => findA p k
  | some cv =>
    match cv, findA p k with
    | TVal.vMap cm, some (TVal.vMap pm) =>
        some (TVal.vMap (deepMergeCore pm cm))
    | _, _ => some cv

/-!
## Lemmas about the association-list primitives
-/

theorem findA_setKey_self {α : Type} (m : List (String × α)) (k : String)
    (v : α) : findA (setKey m k v) k = some v := by
  induction m with
  | nil => simp [setKey, findA]
  | cons hd tl ih =>
    obtain ⟨k', v'⟩ := hd
    by_cases h : k' = k
    · subst h; simp [setKey, findA]
    · simp [setKey, findA, h, ih]

theorem findA_setKey_ne {α : Type} (m : List (String × α)) {k' k : String}
    (v : α) (h : k' ≠ k) : findA (setKey m k' v) k = findA m k := by
  induction m with
  | nil => simp [setKey, findA, h]
  | cons hd tl ih =>
    obtain ⟨a, b⟩ := hd
    by_cases ha : a = k'
    · subst ha; simp [setKey, findA, h]
    · simp [setKey, findA, ha, ih]

theorem setKey_of_findA_eq {α : Type} {m : List (String × α)} {k : String}
    {v : α} (h : findA m k = some v) : setKey m k v = m := by
  induction m with
  | nil => simp [findA] at h
  | cons hd tl ih =>
    obtain ⟨a, b⟩ := hd
    by_cases ha : a = k
    · subst ha
      simp [findA] at h
      simp [setKey, h]
    · simp [findA, ha] at h
      simp [setKey, ha, ih h]

theorem setKey_setKey_same {α : Type} (m : List (String × α)) (k : String)
    (x y : α) : setKey (setKey m k x) k y = setKey m k y := by
  induction m with
  | nil => simp [setKey]
  | cons hd tl ih =>
    obtain ⟨a, b⟩ := hd
    by_cases ha : a = k
    · subst ha; simp [setKey]
    · simp [setKey, ha, ih]

theorem setKey_comm_left {α : Type} (m : List (String × α)) {k k' : String}
    (x y : α) (hne : k ≠ k') (hm : (findA m k).isSome) :
    setKey (setKey m k x) k' y = setKey (setKey m k' y) k x := by
  induction m with
  | nil => simp [findA] at hm
  | cons hd tl ih =>
    obtain ⟨a, b⟩ := hd
    by_cases hak : a = k
    · subst hak
      simp [setKey, hne, Ne.symm hne]
    · by_cases hak' : a = k'
      · subst hak'
        simp [setKey, hne, Ne.symm hne, hak]
      · simp [findA, hak] at hm
        simp [setKey, hak, hak', ih hm]

theorem isSome_findA_setKey {α : Type} (m : List (String × α))
    {k : String} (k' : String) (v : α) (hm : (findA m k).isSome) :
    (findA (setKey m k' v) k).isSome := by
  by_cases h : k' = k
  · subst h; simp [findA_setKey_self]
  · rw [findA_setKey_ne m v h]; exact hm

theorem findA_eq_none_of_not_mem {α : Type} {m : List (String × α)}
    {k : String} (h : k ∉ m.map Prod.fst) : findA m k = none := by
  induction m with
  | nil => simp [findA]
  | cons hd tl ih =>
    obtain ⟨a, b⟩ := hd
    simp only [List.map_cons, List.mem_cons, not_or] at h
    simp [findA, Ne.symm h.1, ih h.2]

theorem findA_mapsCopy_not_mem {α : Type} (l : List (String × α))
    {k : String} (hl : ∀ p ∈ l, p.1 ≠ k) :
    ∀ m : List (String × α), findA (mapsCopy m l) k = findA m k := by
  induction l with
  | nil => intro m; rfl
  | cons hd rest ih =>
    intro m
    obtain ⟨k1, v1⟩ := hd
    have h1 : k1 ≠ k := hl (k1, v1) (by simp)
    have hrest : ∀ p ∈ rest, p.1 ≠ k := fun p hp => hl p (by simp [hp])
    rw [show mapsCopy m ((k1, v1) :: rest) = mapsCopy (setKey m k1 v1) rest
          from rfl,
        ih hrest, findA_setKey_ne m v1 h1]

theorem isSome_findA_mapsCopy {α : Type} (l : List (String × α))
    {k : String} : ∀ m : List (String × α), (findA m k).isSome →
    (findA (mapsCopy m l) k).isSome := by
  induction l with
  | nil => intro m hm; exact hm
  | cons hd rest ih =>
    intro m hm
    obtain ⟨k1, v1⟩ := hd
    exact ih (setKey m k1 v1) (isSome_findA_setKey m k1 v1 hm)

theorem mapsCopy_absorb {α : Type} (l : List (String × α)) :
    ∀ (m : List (String × α)) (k : String) (x : α),
    (findA m k).isSome → k ∈ l.map Prod.fst →
    mapsCopy (setKey m k x) l = mapsCopy m l := by
  induction l with
  | nil => intro m k x _ hl; simp at hl
  | cons hd rest ih =>
    intro m k x hm hl
    obtain ⟨k1, v1⟩ := hd
    by_cases hk1 : k1 = k
    · subst hk1
      show mapsCopy (setKey (setKey m k1 x) k1 v1) rest =
        mapsCopy (setKey m k1 v1) rest
      rw [setKey_setKey_same]
    · have hl' : k ∈ rest.map Prod.fst := by
        simp only [List.map_cons, List.mem_cons] at hl
        exact hl.resolve_left (fun h => hk1 h.symm)
      show mapsCopy (setKey (setKey m k x) k1 v1) rest =
        mapsCopy (setKey m k1 v1) rest
      rw [setKey_comm_left m x v1 (fun h => hk1 h.symm) hm]
      exact ih (setKey m k1 v1) k x (isSome_findA_setKey m k1 v1 hm) hl'

theorem mapsCopy_idem {α : Type} (l : List (String × α)) :
    ∀ m : List (String × α), mapsCopy (mapsCopy m l) l = mapsCopy m l := by
  induction l with
  | nil => intro m; rfl
  | cons hd rest ih =>
    intro m
    obtain ⟨k, x⟩ := hd
    show mapsCopy (setKey (mapsCopy (setKey m k x) rest) k x) rest =
      mapsCopy (setKey m k x) rest
    by_cases hk : k ∈ rest.map Prod.fst
    · rw [mapsCopy_absorb rest (mapsCopy (setKey m k x) rest) k x
          (isSome_findA_mapsCopy rest (setKey m k x)
            (by simp [findA_setKey_self])) hk,
        ih (setKey m k x)]
    · have hfind : findA (mapsCopy (setKey m k x) rest) k = some x := by
        rw [findA_mapsCopy_not_mem rest
            (fun p hp heq =>
              hk (by rw [← heq]; exact List.mem_map_of_mem Prod.fst hp)),
          findA_setKey_self]
      rw [setKey_of_findA_eq hfind, ih (setKey m k x)]

/-!
## Lemmas about `Endpoint.applyEntry` and `Endpoint.applyEntries`
-/

namespace Endpoint

theorem applyEntry_name_eq (e : Endpoint) (v : TVal) :
    applyEntry e "name" v = { e with Name := setStringField e.Name v } := rfl

theorem applyEntry_group_eq (e : Endpoint) (v : TVal) :
    applyEntry e "group" v = { e with Group := setStringField e.Group v } := rfl

theorem applyEntry_url_eq (e : Endpoint) (v : TVal) :
    applyEntry e "url" v = { e with URL := setStringField e.URL v } := rfl

theorem applyEntry_conditions_eq (e : Endpoint) (v : TVal) :
    applyEntry e "conditions" v =
    { e with Conditions := setConditionsField e.Conditions v } := rfl

theorem applyEntry_interval_eq (e : Endpoint) (v : TVal) :
    applyEntry e "interval" v =
    { e with Interval := setStringField e.Interval v } := rfl

theorem applyEntry_dns_eq (e : Endpoint) (v : TVal) :
    applyEntry e "dns" v = { e with DNS := setMapField e.DNS v } := rfl

theorem applyEntry_client_eq (e : Endpoint) (v : TVal) :
    applyEntry e "client" v = { e with Client := setMapField e.Client v } := rfl

theorem applyEntry_ui_eq (e : Endpoint) (v : TVal) :
    applyEntry e "ui" v = { e with UI := setMapField e.UI v } := rfl

theorem applyEntry_guarded_eq (e : Endpoint) (v : TVal) :
    applyEntry e "guarded" v =
    { e with Guarded := match v with | .vBool g => g | _ => e.Guarded } := rfl

theorem applyEntry_other_eq (e : Endpoint) {k : String} (v : TVal)
    (h1 : k ≠ "name") (h2 : k ≠ "group") (h3 : k ≠ "url")
    (h4 : k ≠ "conditions") (h5 : k ≠ "interval") (h6 : k ≠ "dns")
    (h7 : k ≠ "client") (h8 : k ≠ "ui") (h9 : k ≠ "guarded") :
    applyEntry e k v = AddExtraField e k v := by
  unfold applyEntry
  split_ifs <;> first | rfl | simp_all

theorem applyEntry_Name_of_ne (e : Endpoint) {k : String} (v : TVal)
    (h : k ≠ "name") : (applyEntry e k v).Name = e.Name := by
  unfold applyEntry; split_ifs <;> simp_all [AddExtraField]

theorem applyEntry_Group_of_ne (e : Endpoint) {k : String} (v : TVal)
    (h : k ≠ "group") : (applyEntry e k v).Group = e.Group := by
  unfold applyEntry; split_ifs <;> simp_all [AddExtraField]

theorem applyEntry_URL_of_ne (e : Endpoint) {k : String} (v : TVal)
    (h : k ≠ "url") : (applyEntry e k v).URL = e.URL := by
  unfold applyEntry; split_ifs <;> simp_all [AddExtraField]

theorem applyEntry_Conditions_of_ne (e : Endpoint) {k : String} (v : TVal)
    (h : k ≠ "conditions") : (applyEntry e k v).Conditions = e.Conditions := by
  unfold applyEntry; split_ifs <;> simp_all [AddExtraField]

theorem applyEntry_Interval_of_ne (e : Endpoint) {k : String} (v : TVal)
    (h : k ≠ "interval") : (applyEntry e k v).Interval = e.Interval := by
  unfold applyEntry; split_ifs <;> simp_all [AddExtraField]

theorem applyEntry_DNS_of_ne (e : Endpoint) {k : String} (v : TVal)
    (h : k ≠ "dns") : (applyEntry e k v).DNS = e.DNS := by
  unfold applyEntry; split_ifs <;> simp_all [AddExtraField]

theorem applyEntry_Client_of_ne (e : Endpoint) {k : String} (v : TVal)
    (h : k ≠ "client") : (applyEntry e k v).Client = e.Client := by
  unfold applyEntry; split_ifs <;> simp_all [AddExtraField]

theorem applyEntry_UI_of_ne (e : Endpoint) {k : String} (v : TVal)
    (h : k ≠ "ui") : (applyEntry e k v).UI = e.UI := by
  unfold applyEntry; split_ifs <;> simp_all [AddExtraField]

theorem applyEntry_Guarded_of_ne (e : Endpoint) {k : String} (v : TVal)
    (h : k ≠ "guarded") : (applyEntry e k v).Guarded = e.Guarded := by
  unfold applyEntry; split_ifs <;> simp_all [AddExtraField]

theorem applyEntry_Extra_find_of_ne (e : Endpoint) {k' k : String}
    (v : TVal) (h : k' ≠ k) :
    findA ((applyEntry e k' v).Extra.getD []) k =
    findA (e.Extra.getD []) k := by
  unfold applyEntry
  split_ifs <;> simp_all [AddExtraField, findA_setKey_ne]

theorem applyEntry_Extra_isSome (e : Endpoint) (k : String) (v : TVal)
    (h : e.Extra.isSome) : (applyEntry e k v).Extra.isSome := by
  unfold applyEntry
  split_ifs <;> simp_all [AddExtraField]

theorem applyEntries_Name_of (l : TMap) :
    ∀ e : Endpoint, (∀ p ∈ l, p.1 ≠ "name") →
    (applyEntries e l).Name = e.Name := by
  induction l with
  | nil => intro e _; rfl
  | cons hd rest ih =>
    intro e h
    obtain ⟨k, v⟩ := hd
    rw [show applyEntries e ((k, v) :: rest) =
          applyEntries (applyEntry e k v) rest from rfl,
      ih (applyEntry e k v) (fun p hp => h p (by simp [hp])),
      applyEntry_Name_of_ne e v (h (k, v) (by simp))]

theorem applyEntries_Group_of (l : TMap) :
    ∀ e : Endpoint, (∀ p ∈ l, p.1 ≠ "group") →
    (applyEntries e l).Group = e.Group := by
  induction l with
  | nil => intro e _; rfl
  | cons hd rest ih =>
    intro e h
    obtain ⟨k, v⟩ := hd
    rw [show applyEntries e ((k, v) :: rest) =
          applyEntries (applyEntry e k v) rest from rfl,
      ih (applyEntry e k v) (fun p hp => h p (by simp [hp])),
      applyEntry_Group_of_ne e v (h (k, v) (by simp))]

theorem applyEntries_URL_of (l : TMap) :
    ∀ e : Endpoint, (∀ p ∈ l, p.1 ≠ "url") →
    (applyEntries e l).URL = e.URL := by
  induction l with
  | nil => intro e _; rfl
  | cons hd rest ih =>
    intro e h
    obtain ⟨k, v⟩ := hd
    rw [show applyEntries e ((k, v) :: rest) =
          applyEntries (applyEntry e k v) rest from rfl,
      ih (applyEntry e k v) (fun p hp => h p (by simp [hp])),
      applyEntry_URL_of_ne e v (h (k, v) (by simp))]

theorem applyEntries_Conditions_of (l : TMap) :
    ∀ e : Endpoint, (∀ p ∈ l, p.1 ≠ "conditions") →
    (applyEntries e l).Conditions = e.Conditions := by
  induction l with
  | nil => intro e _; rfl
  | cons hd rest ih =>
    intro e h
    obtain ⟨k, v⟩ := hd
    rw [show applyEntries e ((k, v) :: rest) =
          applyEntries (applyEntry e k v) rest from rfl,
      ih (applyEntry e k v) (fun p hp => h p (by simp [hp])),
      applyEntry_Conditions_of_ne e v (h (k, v) (by simp))]

theorem applyEntries_Interval_of (l : TMap) :
    ∀ e : Endpoint, (∀ p ∈ l, p.1 ≠ "interval") →
    (applyEntries e l).Interval = e.Interval := by
  induction l with
  | nil => intro e _; rfl
  | cons hd rest ih =>
    intro e h
    obtain ⟨k, v⟩ := hd
    rw [show applyEntries e ((k, v) :: rest) =
          applyEntries (applyEntry e k v) rest from rfl,
      ih (applyEntry e k v) (fun p hp => h p (by simp [hp])),
      applyEntry_Interval_of_ne e v (h (k, v) (by simp))]

theorem applyEntries_DNS_of (l : TMap) :
    ∀ e : Endpoint, (∀ p ∈ l, p.1 ≠ "dns") →
    (applyEntries e l).DNS = e.DNS := by
  induction l with
  | nil => intro e _; rfl
  | cons hd rest ih =>
    intro e h
    obtain ⟨k, v⟩ := hd
    rw [show applyEntries e ((k, v) :: rest) =
          applyEntries (applyEntry e k v) rest from rfl,
      ih (applyEntry e k v) (fun p hp => h p (by simp [hp])),
      applyEntry_DNS_of_ne e v (h (k, v) (by simp))]

theorem applyEntries_Client_of (l : TMap) :
    ∀ e : Endpoint, (∀ p ∈ l, p.1 ≠ "client") →
    (applyEntries e l).Client = e.Client := by
  induction l with
  | nil => intro e _; rfl
  | cons hd rest ih =>
    intro e h
    obtain ⟨k, v⟩ := hd
    rw [show applyEntries e ((k, v) :: rest) =
          applyEntries (applyEntry e k v) rest from rfl,
      ih (applyEntry e k v) (fun p hp => h p (by simp [hp])),
      applyEntry_Client_of_ne e v (h (k, v) (by simp))]

theorem applyEntries_UI_of (l : TMap) :
    ∀ e : Endpoint, (∀ p ∈ l, p.1 ≠ "ui") →
    (applyEntries e l).UI = e.UI := by
  induction l with
  | nil => intro e _; rfl
  | cons hd rest ih =>
    intro e h
    obtain ⟨k, v⟩ := hd
    rw [show applyEntries e ((k, v) :: rest) =
          applyEntries (applyEntry e k v) rest from rfl,
      ih (applyEntry e k v) (fun p hp => h p (by simp [hp])),
      applyEntry_UI_of_ne e v (h (k, v) (by simp))]

theorem applyEntries_Guarded_of (l : TMap) :
    ∀ e : Endpoint, (∀ p ∈ l, p.1 ≠ "guarded") →
    (applyEntries e l).Guarded = e.Guarded := by
  induction l with
  | nil => intro e _; rfl
  | cons hd rest ih =>
    intro e h
    obtain ⟨k, v⟩ := hd
    rw [show applyEntries e ((k, v) :: rest) =
          applyEntries (applyEntry e k v) rest from rfl,
      ih (applyEntry e k v) (fun p hp => h p (by simp [hp])),
      applyEntry_Guarded_of_ne e v (h (k, v) (by simp))]

theorem applyEntries_Extra_find_of (l : TMap) {k : String} :
    ∀ e : Endpoint, (∀ p ∈ l, p.1 ≠ k) →
    findA ((applyEntries e l).Extra.getD []) k =
    findA (e.Extra.getD []) k := by
  induction l with
  | nil => intro e _; rfl
  | cons hd rest ih =>
    intro e h
    obtain ⟨k', v⟩ := hd
    rw [show applyEntries e ((k', v) :: rest) =
          applyEntries (applyEntry e k' v) rest from rfl,
      ih (applyEntry e k' v) (fun p hp => h p (by simp [hp])),
      applyEntry_Extra_find_of_ne e v (h (k', v) (by simp))]

theorem applyEntries_Extra_isSome (l : TMap) :
    ∀ e : Endpoint, e.Extra.isSome → (applyEntries e l).Extra.isSome := by
  induction l with
  | nil => intro e h; exact h
  | cons hd rest ih =>
    intro e h
    obtain ⟨k, v⟩ := hd
    exact ih (applyEntry e k v) (applyEntry_Extra_isSome e k v h)

theorem setStringField_sat (s : String) (v : TVal) :
    setStringField (setStringField s v) v = setStringField s v := by
  cases v <;> rfl

theorem setConditionsField_sat (c : Option (List String)) (v : TVal) :
    setConditionsField (setConditionsField c v) v = setConditionsField c v := by
  cases v <;> rfl

theorem setMapField_sat (f : Option TMap) (v : TVal) :
    setMapField (setMapField f v) v = setMapField f v := by
  cases v <;> try rfl
  simp [setMapField, mapsCopy_idem]

end Endpoint

/-- Replaying a template whose keys are pairwise distinct (as the keys of
a Go map are) is a no-op on the endpoint it produced. -/
theorem applyEntries_idem (l : TMap) :
    ∀ e : Endpoint, (l.map Prod.fst).Nodup →
    Endpoint.applyEntries (Endpoint.applyEntries e l) l =
    Endpoint.applyEntries e l := by
  induction l with
  | nil => intro e _; rfl
  | cons hd rest ih =>
    intro e h
    obtain ⟨k, v⟩ := hd
    simp only [List.map_cons, List.nodup_cons] at h
    obtain ⟨hk, hrest⟩ := h
    have hne : ∀ p ∈ rest, p.1 ≠ k := fun p hp heq =>
      hk (by rw [← heq]; exact List.mem_map_of_mem Prod.fst hp)
    rw [show Endpoint.applyEntries e ((k, v) :: rest) =
          Endpoint.applyEntries (Endpoint.applyEntry e k v) rest from rfl]
    set b := Endpoint.applyEntry e k v with hb
    set c := Endpoint.applyEntries b rest with hc
    rw [show Endpoint.applyEntries c ((k, v) :: rest) =
          Endpoint.applyEntries (Endpoint.applyEntry c k v) rest from rfl]
    have hstep : Endpoint.applyEntry c k v = c := by
      by_cases h1 : k = "name"
      · subst h1
        rw [Endpoint.applyEntry_name_eq]
        have hcf : c.Name = b.Name := Endpoint.applyEntries_Name_of rest b hne
        have hbf : b.Name = Endpoint.setStringField e.Name v := by
          rw [hb, Endpoint.applyEntry_name_eq]
        rw [hcf, hbf, Endpoint.setStringField_sat, ← hbf, ← hcf]
      by_cases h2 : k = "group"
      · subst h2
        rw [Endpoint.applyEntry_group_eq]
        have hcf : c.Group = b.Group := Endpoint.applyEntries_Group_of rest b hne
        have hbf : b.Group = Endpoint.setStringField e.Group v := by
          rw [hb, Endpoint.applyEntry_group_eq]
        rw [hcf, hbf, Endpoint.setStringField_sat, ← hbf, ← hcf]
      by_cases h3 : k = "url"
      · subst h3
        rw [Endpoint.applyEntry_url_eq]
        have hcf : c.URL = b.URL := Endpoint.applyEntries_URL_of rest b hne
        have hbf : b.URL = Endpoint.setStringField e.URL v := by
          rw [hb, Endpoint.applyEntry_url_eq]
        rw [hcf, hbf, Endpoint.setStringField_sat, ← hbf, ← hcf]
      by_cases h4 : k = "conditions"
      · subst h4
        rw [Endpoint.applyEntry_conditions_eq]
        have hcf : c.Conditions = b.Conditions :=
          Endpoint.applyEntries_Conditions_of rest b hne
        have hbf : b.Conditions = Endpoint.setConditionsField e.Conditions v := by
          rw [hb, Endpoint.applyEntry_conditions_eq]
        rw [hcf, hbf, Endpoint.setConditionsField_sat, ← hbf, ← hcf]
      by_cases h5 : k = "interval"
      · subst h5
        rw [Endpoint.applyEntry_interval_eq]
        have hcf : c.Interval = b.Interval :=
          Endpoint.applyEntries_Interval_of rest b hne
        have hbf : b.Interval = Endpoint.setStringField e.Interval v := by
          rw [hb, Endpoint.applyEntry_interval_eq]
        rw [hcf, hbf, Endpoint.setStringField_sat, ← hbf, ← hcf]
      by_cases h6 : k = "dns"
      · subst h6
        rw [Endpoint.applyEntry_dns_eq]
        have hcf : c.DNS = b.DNS := Endpoint.applyEntries_DNS_of rest b hne
        have hbf : b.DNS = Endpoint.setMapField e.DNS v := by
          rw [hb, Endpoint.applyEntry_dns_eq]
        rw [hcf, hbf, Endpoint.setMapField_sat, ← hbf, ← hcf]
      by_cases h7 : k = "client"
      · subst h7
        rw [Endpoint.applyEntry_client_eq]
        have hcf : c.Client = b.Client := Endpoint.applyEntries_Client_of rest b hne
        have hbf : b.Client = Endpoint.setMapField e.Client v := by
          rw [hb, Endpoint.applyEntry_client_eq]
        rw [hcf, hbf, Endpoint.setMapField_sat, ← hbf, ← hcf]
      by_cases h8 : k = "ui"
      · subst h8
        rw [Endpoint.applyEntry_ui_eq]
        have hcf : c.UI = b.UI := Endpoint.applyEntries_UI_of rest b hne
        have hbf : b.UI = Endpoint.setMapField e.UI v := by
          rw [hb, Endpoint.applyEntry_ui_eq]
        rw [hcf, hbf, Endpoint.setMapField_sat, ← hbf, ← hcf]
      by_cases h9 : k = "guarded"
      · subst h9
        rw [Endpoint.applyEntry_guarded_eq]
        have hcf : c.Guarded = b.Guarded :=
          Endpoint.applyEntries_Guarded_of rest b hne
        cases v with
        | vBool g =>
          have hbf : b.Guarded = g := by
            rw [hb, Endpoint.applyEntry_guarded_eq]
          rw [show (match TVal.vBool g with
                | TVal.vBool g => g
                | _ => c.Guarded) = g from rfl, ← hbf, ← hcf]
        | vNull => rfl
        | vInt _ => rfl
        | vStr _ => rfl
        | vStrSlice _ => rfl
        | vSeq _ => rfl
        | vMap _ => rfl
      -- unrecognized key: routed to Extra
      rw [Endpoint.applyEntry_other_eq c v h1 h2 h3 h4 h5 h6 h7 h8 h9]
      have hbe : b.Extra = some (setKey (e.Extra.getD []) k v) := by
        rw [hb, Endpoint.applyEntry_other_eq e v h1 h2 h3 h4 h5 h6 h7 h8 h9,
          Endpoint.AddExtraField]
      have hfb : findA (b.Extra.getD []) k = some v := by
        rw [hbe]
        simp [findA_setKey_self]
      have hfc : findA (c.Extra.getD []) k = some v := by
        rw [hc, Endpoint.applyEntries_Extra_find_of rest b hne, hfb]
      have hsc : c.Extra.isSome := by
        rw [hc]
        exact Endpoint.applyEntries_Extra_isSome rest b (by rw [hbe]; rfl)
      obtain ⟨mm, hmm⟩ := Option.isSome_iff_exists.mp hsc
      rw [Endpoint.AddExtraField, hmm]
      simp only [Option.getD_some]
      rw [hmm] at hfc
      simp only [Option.getD_some] at hfc
      rw [setKey_of_findA_eq hfc, ← hmm]
    rw [hstep, hc, ih b hrest]

/-- `deepMergeStep` only touches its own key. -/
theorem findA_deepMergeStep_ne (p : TMap) {k0 k : String} (v0 : TVal)
    (h : k0 ≠ k) : findA (deepMergeStep p k0 v0) k = findA p k := by
  unfold deepMergeStep
  split <;> rw [findA_setKey_ne _ _ h]

/-- The lookup characterization of the deep merge, for child maps with
pairwise distinct keys (as the keys of a Go map are). -/
theorem findA_deepMergeCore (c : TMap) :
    ∀ (p : TMap) (k : String), (c.map Prod.fst).Nodup →
    findA (deepMergeCore p c) k = mergeLookupSpec p c k := by
  induction c with
  | nil => intro p k _; simp [deepMergeCore, mergeLookupSpec, findA]
  | cons hd rest ih =>
    intro p k h
    obtain ⟨k0, v0⟩ := hd
    simp only [List.map_cons, List.nodup_cons] at h
    obtain ⟨hk0, hrest⟩ := h
    rw [show deepMergeCore p ((k0, v0) :: rest) =
          deepMergeCore (deepMergeStep p k0 v0) rest by
        simp [deepMergeCore]]
    rw [ih (deepMergeStep p k0 v0) k hrest]
    by_cases hkk : k = k0
    · subst hkk
      have hnone : findA rest k = none := findA_eq_none_of_not_mem hk0
      cases hf : findA p k with
      | none =>
        cases v0 <;>
          simp [mergeLookupSpec, deepMergeStep, hnone, hf, findA,
            findA_setKey_self]
      | some pv =>
        cases pv <;> cases v0 <;>
          simp [mergeLookupSpec, deepMergeStep, hnone, hf, findA,
            findA_setKey_self]
    · have hswap : ¬ k0 = k := fun hh => hkk hh.symm
      have hfstep := findA_deepMergeStep_ne p v0 hswap
      cases hr : findA rest k with
      | none => simp [mergeLookupSpec, hr, hswap, findA, hfstep]
      | some cv => simp [mergeLookupSpec, hr, hswap, findA, hfstep]

/-- After `AddOrUpdate`, the key holds the candidate endpoint. -/
theorem findA_AddOrUpdate_self (s : ManagerState) (key : String)
    (e : Endpoint) (w : Bool) :
    findA ((Manager.AddOrUpdate s key e w).1).endpoints key = some e := by
  unfold Manager.AddOrUpdate
  cases hf : findA s.endpoints key with
  | none => cases w <;> simp [Manager.writeState, findA_setKey_self]
  | some existing =>
    by_cases he : existing = e
    · subst he; simp [hf]
    · simp only [hf, if_neg he]
      cases w <;> simp [Manager.writeState, findA_setKey_self]

/-!
## The claims
-/

/-- Claim C1: the claim states that `AddOrUpdate` writes to disk exactly
when its `deferWrite` flag is false, so that deferred bulk seeding causes
no per-object writes.  The code inverts this: `Manager.AddOrUpdate`
writes exactly when its boolean third argument is true, and
`Controller.handleEvent` passes `skipWrite` straight through as that
argument, so the deferred call writes and the synchronous call does not.
This theorem evaluates the code at the failing inputs: with the flag
`true` one disk write happens, with `false` none does, both directly on
the manager and through the event pipeline. -/
theorem claim_C1 :
    (Manager.AddOrUpdate Manager.NewManager "k" eSvc true).1.writeCount = 1 ∧
    (Manager.AddOrUpdate Manager.NewManager "k" eSvc false).1.writeCount = 0 ∧
    (handleEvent passController cfgX oAlpha EventType.added true
      Manager.NewManager).writeCount = 1 ∧
    (handleEvent passController cfgX oAlpha EventType.added false
      Manager.NewManager).writeCount = 0 := by
  refine ⟨by decide, by decide, by decide, by decide⟩

/-- Claim C2: the claim states that the initial listing processes every
object with deferred writes and then issues exactly one `forceWrite`, so
seeding produces at most one disk write.  In the code `initialList`
never calls `ForceWrite` and passes `isNotLast` as the manager's write
flag, so seeding three changed objects writes twice (after the first and
second object) and never after the last: the write count is 2, and the
file on disk does not hold the serialization of the final state (the
last endpoint is missing from it). -/
theorem claim_C2 :
    c2run.writeCount = 2 ∧
    c2run.file ≠ some (Manager.getCurrentState c2run.endpoints) := by
  refine ⟨by decide, by decide⟩

/-- Claim C3: the guarded flag of the base endpoint built by the
per-event pipeline is true exactly when the merged template contains a
`"guarded"` key at all — presence, not value, decides — and in
particular a `"guarded"` key holding null still makes the endpoint
guarded. -/
theorem claim_C3 :
    ∀ (cfg : Config) (name url : String) (td : Option TMap),
      ((buildBaseEndpoint cfg name url td).Guarded = true ↔
        ∃ m, td = some m ∧ (findA m "guarded").isSome = true) ∧
      (buildBaseEndpoint cfg name url
        (some [("guarded", TVal.vNull)])).Guarded = true := by
  intro cfg name url td
  constructor
  · cases td with
    | none => simp [buildBaseEndpoint, isGuardedEndpoint]
    | some m => simp [buildBaseEndpoint, isGuardedEndpoint]
  · simp [buildBaseEndpoint, isGuardedEndpoint, findA]

/-- Claim C4: the template deep-merge returns the other input unchanged
when either side is nil; on `{a: 1, b: {x: 1}}` and `{b: {y: 2}}` it
yields `{a: 1, b: {x: 1, y: 2}}`; and in general, at every key the child
wins on a direct collision, both-map collisions recurse, and keys absent
from the child keep the parent's value (so sibling keys under a merged
map are preserved). -/
theorem claim_C4 :
    (∀ m : Option TMap, deepMergeTemplates none m = m) ∧
    (∀ p : TMap, deepMergeTemplates (some p) none = some p) ∧
    (deepMergeCore [("a", TVal.vInt 1), ("b", TVal.vMap [("x", TVal.vInt 1)])]
        [("b", TVal.vMap [("y", TVal.vInt 2)])] =
      [("a", TVal.vInt 1),
       ("b", TVal.vMap [("x", TVal.vInt 1), ("y", TVal.vInt 2)])]) ∧
    (∀ (p c : TMap) (k : String), (c.map Prod.fst).Nodup →
      findA (deepMergeCore p c) k = mergeLookupSpec p c k) := by
  refine ⟨fun m => by cases m <;> rfl, fun p => rfl, ?_,
    fun p c k hc => findA_deepMergeCore c p k hc⟩
  simp [deepMergeCore, deepMergeStep, findA, setKey]

/-- Witness for claim C4: at parent `{a: 1}` and child `{a: 2}` the merge
holds `a = 2` (child wins on a direct collision). -/
theorem claim_C4_witness :
    findA (deepMergeCore [("a", TVal.vInt 1)] [("a", TVal.vInt 2)]) "a" =
    some (TVal.vInt 2) := by
  have h := claim_C4.2.2.2 [("a", TVal.vInt 1)] [("a", TVal.vInt 2)] "a"
    (by decide)
  rw [h]
  simp [mergeLookupSpec, findA]

/-- Claim C5: calling `AddOrUpdate` again with a structurally identical
endpoint for the same key returns `changed = false` and leaves the whole
manager state — the endpoint map, the output file's contents and the
write count — exactly as it was after the first call. -/
theorem claim_C5 :
    ∀ (s : ManagerState) (key : String) (e : Endpoint) (w1 w2 : Bool),
    Manager.AddOrUpdate (Manager.AddOrUpdate s key e w1).1 key e w2 =
      ((Manager.AddOrUpdate s key e w1).1, false) := by
  intro s key e w1 w2
  set s1 := (Manager.AddOrUpdate s key e w1).1 with hs1
  have h : findA s1.endpoints key = some e := by
    rw [hs1]; exact findA_AddOrUpdate_self s key e w1
  unfold Manager.AddOrUpdate
  rw [h]
  simp

/-- Claim C6: `Endpoint.ApplyTemplate` is idempotent — applying the same
fixed template (a map, so its keys are pairwise distinct; or nil) twice
in succession yields the same endpoint as applying it once. -/
theorem claim_C6 :
    (∀ (e : Endpoint) (t : TMap), (t.map Prod.fst).Nodup →
      Endpoint.ApplyTemplate (Endpoint.ApplyTemplate e (some t)) (some t) =
        Endpoint.ApplyTemplate e (some t)) ∧
    (∀ e : Endpoint,
      Endpoint.ApplyTemplate (Endpoint.ApplyTemplate e none) none =
        Endpoint.ApplyTemplate e none) :=
  ⟨fun e t h => applyEntries_idem t e h, fun _ => rfl⟩

/-- Witness for claim C6: applying a template that overrides a string
field, merges a dns map and adds an extra field twice equals applying it
once. -/
theorem claim_C6_witness :
    Endpoint.ApplyTemplate (Endpoint.ApplyTemplate eSvc (some tOverride))
      (some tOverride) = Endpoint.ApplyTemplate eSvc (some tOverride) :=
  claim_C6.1 eSvc tOverride (by decide)

/-- Claim C7: the conditions override normalization — a bare string
yields a singleton sequence, a `[]string` value is taken as-is, and a
heterogeneous sequence is filtered to exactly its string elements in
their original relative order, as the concrete example with `42` dropped
shows. -/
theorem claim_C7 :
    (∀ (e : Endpoint) (s : String),
      (Endpoint.ApplyTemplate e
        (some [("conditions", TVal.vStr s)])).Conditions = some [s]) ∧
    (∀ (e : Endpoint) (l : List String),
      (Endpoint.ApplyTemplate e
        (some [("conditions", TVal.vStrSlice l)])).Conditions = some l) ∧
    (∀ (e : Endpoint) (l : List TVal),
      (Endpoint.ApplyTemplate e
        (some [("conditions", TVal.vSeq l)])).Conditions =
        some (l.filterMap TVal.asStr)) ∧
    (∀ e : Endpoint,
      (Endpoint.ApplyTemplate e
        (some [("conditions",
          TVal.vSeq [TVal.vStr "[STATUS]==200", TVal.vInt 42,
            TVal.vStr "[RESPONSE_TIME]<500"])])).Conditions =
        some ["[STATUS]==200", "[RESPONSE_TIME]<500"]) :=
  ⟨fun _ _ => rfl, fun _ _ => rfl, fun _ _ => rfl, fun _ => rfl⟩

/-- Claim C8: no recognized key raises an error for a wrong-typed value —
a non-string for name/url/interval/group, a non-map for client/dns/ui
and a non-boolean for guarded each leave the endpoint entirely
unchanged — and a nil template is a no-op. -/
theorem claim_C8 :
    (∀ (e : Endpoint) (v : TVal), v.isStr = false →
      Endpoint.ApplyTemplate e (some [("name", v)]) = e) ∧
    (∀ (e : Endpoint) (v : TVal), v.isStr = false →
      Endpoint.ApplyTemplate e (some [("url", v)]) = e) ∧
    (∀ (e : Endpoint) (v : TVal), v.isStr = false →
      Endpoint.ApplyTemplate e (some [("interval", v)]) = e) ∧
    (∀ (e : Endpoint) (v : TVal), v.isStr = false →
      Endpoint.ApplyTemplate e (some [("group", v)]) = e) ∧
    (∀ (e : Endpoint) (v : TVal), v.isMap = false →
      Endpoint.ApplyTemplate e (some [("client", v)]) = e) ∧
    (∀ (e : Endpoint) (v : TVal), v.isMap = false →
      Endpoint.ApplyTemplate e (some [("dns", v)]) = e) ∧
    (∀ (e : Endpoint) (v : TVal), v.isMap = false →
      Endpoint.ApplyTemplate e (some [("ui", v)]) = e) ∧
    (∀ (e : Endpoint) (v : TVal), v.isBool = false →
      Endpoint.ApplyTemplate e (some [("guarded", v)]) = e) ∧
    (∀ e : Endpoint, Endpoint.ApplyTemplate e none = e) := by
  refine ⟨?_, ?_, ?_, ?_, ?_, ?_, ?_, ?_, fun e => rfl⟩ <;>
    intro e v h <;>
    cases v <;> first | rfl | simp [TVal.isStr, TVal.isMap, TVal.isBool] at h

/-- Witness for claim C8: the override `{name: 123}` leaves the endpoint
unchanged. -/
theorem claim_C8_witness :
    Endpoint.ApplyTemplate eSvc (some [("name", TVal.vInt 123)]) = eSvc :=
  claim_C8.1 eSvc (TVal.vInt 123) (by decide)

/-- Claim C9: when the url extraction of a processable, non-deleted
object comes back empty, `handleEvent` returns the manager state
untouched — in particular a previously stored endpoint under that key is
not removed. -/
theorem claim_C9 :
    ∀ {σ : Type} (C : Controller σ) (cfg : Config) (obj : σ)
      (eventType : EventType) (skipWrite : Bool) (s : ManagerState),
    C.ShouldProcess obj cfg = true → eventType ≠ EventType.deleted →
    C.ExtractURL obj = "" →
    handleEvent C cfg obj eventType skipWrite s = s := by
  intro σ C cfg obj et sw s h1 h2 h3
  simp [handleEvent, h1, h2, h3]

/-- Witness for claim C9: a processable modified object with no url
leaves the state, which holds a previously derived endpoint under the
same key, exactly as it was. -/
theorem claim_C9_witness :
    passController.ShouldProcess oNoUrl cfgX = true ∧
    passController.ExtractURL oNoUrl = "" ∧
    handleEvent passController cfgX oNoUrl EventType.modified false sWeb =
      sWeb :=
  ⟨by decide, by decide,
    claim_C9 passController cfgX oNoUrl EventType.modified false sWeb
      (by decide) (by decide) (by decide)⟩

/-- Claim C10: for a route with a non-empty first hostname, the HTTPRoute
url extractor returns the hostname unchanged whenever it begins with the
substring `"http"` — including non-url hostnames such as
`"http-test.domain.com"` — and prepends `"https://"` exactly when it
does not. -/
theorem claim_C10 :
    ∀ route : HTTPRoute, getFirstHostname route ≠ "" →
    (goStartsWith (getFirstHostname route) "http" = true →
      urlExtractor route = getFirstHostname route) ∧
    (goStartsWith (getFirstHostname route) "http" = false →
      urlExtractor route = "https://" ++ getFirstHostname route) := by
  intro route h
  constructor
  · intro hp
    simp [urlExtractor, h, hp]
  · intro hp
    simp [urlExtractor, h, hp]

/-- Witness for claim C10: the hostname `http-test.domain.com` comes back
unchanged with no scheme added, while `api.example.com` gets
`https://` prepended. -/
theorem claim_C10_witness :
    getFirstHostname routeHttpName ≠ "" ∧
    goStartsWith (getFirstHostname routeHttpName) "http" = true ∧
    urlExtractor routeHttpName = "http-test.domain.com" ∧
    goStartsWith (getFirstHostname routePlain) "http" = false ∧
    urlExtractor routePlain = "https://api.example.com" := by
  refine ⟨by decide, by decide, ?_, by decide, ?_⟩
  · exact ((claim_C10 routeHttpName (by decide)).1 (by decide)).trans (by decide)
  · exact ((claim_C10 routePlain (by decide)).2 (by decide)).trans (by decide)

end GatusSidecar
